import Mathlib

/-!
Verification of the album-curation data layer.

The development shallowly embeds the local-storage record repository
(`src/utils/export.ts` together with the storage accessors) and the review
navigator (`src/pages/ImportPage.tsx`, `ReviewPage`).  The browser's
key-value store is modelled as an explicit `Store` record holding the three
collections; JavaScript objects keyed by strings are modelled as association
lists whose update operation mirrors object/Map semantics (an existing key
keeps its position, a new key is appended).  Timestamps are opaque strings
supplied as parameters.
-/

/-- The two values of the TypeScript union `'已抽卡' | '未抽卡'`
(reviewed / unreviewed). -/
inductive ReviewStatusV where
  | reviewed
  | unreviewed
deriving DecidableEq, Repr

/-- Model of `Album` from `src/types/index.ts`. -/
structure Album where
  albumId : String
  albumName : String
  bookName : String
  category : String
  image1 : String
  image2 : String
  image3 : String
  image4 : String
deriving DecidableEq, Repr

/-- Model of `AlbumReviewStatus` from `src/types/index.ts`. -/
structure AlbumReviewStatus where
  albumId : String
  albumName : String
  bookName : String
  category : String
  reviewProgress : Nat
  reviewStatus : ReviewStatusV
  selectedImageIndex : Option Nat
  selectedImageLink : Option String
deriving DecidableEq, Repr

/-- Model of `AlbumMeta` from `src/types/index.ts`. -/
structure AlbumMeta where
  albumId : String
  importedAt : String
deriving DecidableEq, Repr

/-- The fields of `Partial<AlbumReviewStatus>` that
`updateAlbumReviewStatus` actually reads from its `status` argument
(the identity fields are always refreshed from the Album row instead). -/
structure PartialStatus where
  reviewProgress : Option Nat := none
  reviewStatus : Option ReviewStatusV := none
  selectedImageIndex : Option Nat := none
  selectedImageLink : Option String := none
deriving DecidableEq, Repr

/-- Errors thrown by the repository layer; `notFound` is the
`throw new Error('专辑不存在')` in `updateAlbumReviewStatus`. -/
inductive StoreErr where
  | notFound
deriving DecidableEq, Repr

/-- A string-keyed object / Map, as an association list in key-insertion
order. -/
abbrev KeyMap (α : Type) := List (String × α)

/-- Property lookup `m[k]`, `undefined` as `none`. -/
def lookupKey {α : Type} : KeyMap α → String → Option α
  | [], _ => none
  | p :: rest, k => if p.1 == k then some p.2 else lookupKey rest k

/-- Key test `k in m` / `map.has(k)`. -/
def hasKey {α : Type} (m : KeyMap α) (k : String) : Bool :=
  m.any (fun p => p.1 == k)

/-- Property assignment `m[k] = v` / `map.set(k, v)`: an existing key keeps
its position and gets the new value, a new key is appended. -/
def setKey {α : Type} (m : KeyMap α) (k : String) (v : α) : KeyMap α :=
  if hasKey m k then m.map (fun p => if p.1 == k then (k, v) else p)
  else m ++ [(k, v)]

/-- The persistent store: the three collections the repository owns.
`albums` is the stored array (import order); `status` and `meta` are the
string-keyed maps. -/
structure Store where
  albums : List Album
  status : KeyMap AlbumReviewStatus
  meta : KeyMap AlbumMeta
deriving DecidableEq, Repr

/-- The store before any data was imported. -/
def emptyStore : Store := ⟨[], [], []⟩

/-- Model of `updateAlbumReviewStatus` (`storage.ts`): requires the album to exist,
then rebuilds the row, taking each optional field from the patch, else the
existing row, else a default, and refreshing the identity fields from the
Album row. -/
def updateAlbumReviewStatus (s : Store) (albumId : String)
    (patch : PartialStatus) : Except StoreErr Store :=
  match s.albums.find? (fun a => a.albumId == albumId) with
  | none => .error .notFound
  | some album =>
    let existing := lookupKey s.status albumId
    let newStatus : AlbumReviewStatus :=
      { albumId := albumId
        albumName := album.albumName
        bookName := album.bookName
        category := album.category
        reviewProgress := (patch.reviewProgress.orElse
          (fun _ => existing.map (fun e => e.reviewProgress))).getD 0
        reviewStatus := (patch.reviewStatus.orElse
          (fun _ => existing.map (fun e => e.reviewStatus))).getD .unreviewed
        selectedImageIndex := patch.selectedImageIndex.orElse
          (fun _ => existing.bind (fun e => e.selectedImageIndex))
        selectedImageLink := patch.selectedImageLink.orElse
          (fun _ => existing.bind (fun e => e.selectedImageLink)) }
    .ok { s with status := setKey s.status albumId newStatus }

/-- The row `batchUpdateReviewStatus` writes for a rejected album. -/
def rejectedStatusOf (albumId : String) (album : Album) : AlbumReviewStatus :=
  { albumId := albumId
    albumName := album.albumName
    bookName := album.bookName
    category := album.category
    reviewProgress := 0
    reviewStatus := .reviewed
    selectedImageIndex := none
    selectedImageLink := some "抽卡不通过" }

/-- Write step of `batchUpdateReviewStatus`: look the album up and, when
found, overwrite the status row with the rejected sentinel row. -/
def batchRejectWrite (albums : List Album) (st : KeyMap AlbumReviewStatus)
    (albumId : String) : KeyMap AlbumReviewStatus :=
  match albums.find? (fun a => a.albumId == albumId) with
  | none => st
  | some album => setKey st albumId (rejectedStatusOf albumId album)

/-- One iteration of the `albumIds.forEach` loop of
`batchUpdateReviewStatus`: skip identifiers whose current row is already
reviewed, otherwise write the rejected row when the album exists. -/
def batchRejectStep (albums : List Album) (st : KeyMap AlbumReviewStatus)
    (albumId : String) : KeyMap AlbumReviewStatus :=
  match lookupKey st albumId with
  | some ex =>
    if ex.reviewStatus == .reviewed then st
    else batchRejectWrite albums st albumId
  | none => batchRejectWrite albums st albumId

/-- Model of `batchUpdateReviewStatus` (`storage.ts`): fold the reject step over the
requested identifiers and save the resulting status map. -/
def batchUpdateReviewStatus (s : Store) (albumIds : List String) : Store :=
  { s with status := albumIds.foldl (batchRejectStep s.albums) s.status }

/-- Phase 1 of `importAlbums`: seed `albumMap` and `metaToKeep` with the
existing albums whose status is reviewed (`已抽卡`), keeping their meta
rows when present. -/
def importPhase1Step (s : Store) (acc : KeyMap Album × KeyMap AlbumMeta)
    (album : Album) : KeyMap Album × KeyMap AlbumMeta :=
  match lookupKey s.status album.albumId with
  | some st =>
    if st.reviewStatus == .reviewed then
      (setKey acc.1 album.albumId album,
       match lookupKey s.meta album.albumId with
       | some m => setKey acc.2 album.albumId m
       | none => acc.2)
    else acc
  | none => acc

/-- Phase 1 of `importAlbums` over the whole existing album list. -/
def importPhase1 (s : Store) : KeyMap Album × KeyMap AlbumMeta :=
  s.albums.foldl (importPhase1Step s) ([], [])

/-- Phase 2 of `importAlbums`, one incoming row: count a duplicate when the
identifier is already in `albumMap`, then overwrite the album entry and
stamp a fresh meta row with this import's timestamp. -/
def importPhase2Step (nowIso : String)
    (acc : KeyMap Album × KeyMap AlbumMeta × Nat) (album : Album) :
    KeyMap Album × KeyMap AlbumMeta × Nat :=
  (setKey acc.1 album.albumId album,
   setKey acc.2.1 album.albumId ⟨album.albumId, nowIso⟩,
   if hasKey acc.1 album.albumId then acc.2.2 + 1 else acc.2.2)

/-- The merged `albumMap`, the pending `metaToKeep`, and the `duplicates`
counter after both loops of `importAlbums`. -/
def importMaps (s : Store) (newAlbums : List Album) (nowIso : String) :
    KeyMap Album × KeyMap AlbumMeta × Nat :=
  newAlbums.foldl (importPhase2Step nowIso)
    ((importPhase1 s).1, (importPhase1 s).2, 0)

/-- Model of `importAlbums` (`storage.ts`): keep reviewed albums, apply the incoming
batch last-writer-wins, then filter the status and meta maps to the
surviving identifier set.  Returns the new store together with the
`imported` and `duplicates` counts. -/
def importAlbums (s : Store) (newAlbums : List Album) (nowIso : String) :
    Store × Nat × Nat :=
  let albumMap := (importMaps s newAlbums nowIso).1
  let albums := albumMap.map (fun p => p.2)
  let statusToKeep := s.status.filter (fun p => hasKey albumMap p.1)
  let metaCleaned :=
    (importMaps s newAlbums nowIso).2.1.filter (fun p => hasKey albumMap p.1)
  (⟨albums, statusToKeep, metaCleaned⟩, newAlbums.length,
   (importMaps s newAlbums nowIso).2.2)

/-- Model of `deleteAlbums` (`storage.ts`): de-duplicate the request, early-return on
an empty set, otherwise filter all three collections and report the set
size. -/
def deleteAlbums (s : Store) (albumIdsToDelete : List String) :
    Store × Nat :=
  let deleteSet := albumIdsToDelete.dedup
  if deleteSet.isEmpty then (s, 0)
  else
    (⟨s.albums.filter (fun a => !(deleteSet.contains a.albumId)),
      s.status.filter (fun p => !(deleteSet.contains p.1)),
      s.meta.filter (fun p => !(deleteSet.contains p.1))⟩,
     deleteSet.length)

/-- The four mutating repository operations, for reachability statements. -/
inductive Op where
  | importBatch (newAlbums : List Album) (nowIso : String)
  | updateStatus (albumId : String) (patch : PartialStatus)
  | batchReject (albumIds : List String)
  | deleteRecords (albumIds : List String)

/-- Apply one operation to the store; a thrown `NotFoundError` aborts
before any write, leaving the store unchanged. -/
def applyOp (s : Store) : Op → Store
  | .importBatch newAlbums nowIso => (importAlbums s newAlbums nowIso).1
  | .updateStatus albumId patch =>
    match updateAlbumReviewStatus s albumId patch with
    | .ok s' => s'
    | .error _ => s
  | .batchReject albumIds => batchUpdateReviewStatus s albumIds
  | .deleteRecords albumIds => (deleteAlbums s albumIds).1

/-- Run a sequence of operations from a starting store. -/
def runOps (s : Store) (ops : List Op) : Store := ops.foldl applyOp s

/-- The unreviewed test of the navigator: a status row is absent or its
`reviewStatus` is `未抽卡`. -/
def isUnreviewedB (status : KeyMap AlbumReviewStatus) (a : Album) : Bool :=
  match lookupKey status a.albumId with
  | none => true
  | some st => st.reviewStatus == .unreviewed

/-- Whether an identifier currently counts as unreviewed (row absent or
`未抽卡`); this is a function of the identifier alone. -/
def statusUnreviewed (s : Store) (id : String) : Bool :=
  match lookupKey s.status id with
  | none => true
  | some ex => ex.reviewStatus == .unreviewed

/-- The unreviewed subsequence: the stored album list filtered to
unreviewed identifiers (`ReviewPage`). -/
def unreviewedAlbums (s : Store) : List Album :=
  s.albums.filter (isUnreviewedB s.status)

/-- The identifiers of the unreviewed subsequence, in stored order. -/
def unreviewedIds (s : Store) : List String :=
  (unreviewedAlbums s).map Album.albumId

/-- JavaScript `Array.prototype.findIndex`, with `-1` modelled as `none`. -/
def findIndex {α : Type} (p : α → Bool) : List α → Option Nat
  | [] => none
  | a :: rest => if p a then some 0 else (findIndex p rest).map (· + 1)

/-- Model of `getNextUnreviewedAlbumId` (`ReviewPage`): the successor of `current`
in the unreviewed subsequence, its head when `current` is absent, `null`
past the end or on an empty subsequence. -/
def getNextUnreviewedAlbumId (s : Store) (current : String) :
    Option String :=
  let unreviewed := unreviewedAlbums s
  if unreviewed.length == 0 then none
  else
    match findIndex (fun a => a.albumId == current) unreviewed with
    | none => unreviewed.head?.map Album.albumId
    | some idx =>
      if unreviewed.length - 1 ≤ idx then none
      else (unreviewed[idx + 1]?).map Album.albumId

/-- The `totalAlbumCount` memo of `ReviewPage`. -/
def totalAlbumCount (s : Store) : Nat := s.albums.length

/-- The `unreviewedCount` memo of `ReviewPage`. -/
def unreviewedCount (s : Store) : Nat := (unreviewedAlbums s).length

/-- The `currentIndex` memo of `ReviewPage`: `findIndex` over the unreviewed
subsequence plus one, hence `0` when the album is not in it. -/
def currentIndex (s : Store) (albumId : String) : Int :=
  match findIndex (fun a => a.albumId == albumId) (unreviewedAlbums s) with
  | none => 0
  | some i => (i : Int) + 1

/-- The `overallProgressText` memo of `ReviewPage`, the template string
rendered with `++`. -/
def overallProgressText (s : Store) (albumId : Option String) : String :=
  match albumId with
  | none => "0/" ++ toString (totalAlbumCount s)
  | some current =>
    if totalAlbumCount s ≤ 0 then "0/0"
    else
      let reviewedCount : Int :=
        max 0 ((totalAlbumCount s : Int) - (unreviewedCount s : Int))
      let currentOverallIndex : Int :=
        if 0 < currentIndex s current then
          reviewedCount + currentIndex s current
        else reviewedCount
      let safeCurrent : Int :=
        min (max currentOverallIndex 0) (totalAlbumCount s : Int)
      toString safeCurrent ++ "/" ++ toString (totalAlbumCount s)

/-- The specification's progress formula `clamp(0, T, (T−U) + P)`. -/
def claimProgressValue (T U P : Int) : Int := max 0 (min ((T - U) + P) T)

/-- A concrete album used by witnesses and counterexamples. -/
def albumA : Album := ⟨"1", "name", "book", "cat", "i1", "i2", "i3", "i4"⟩

/-- A row with `albumA`'s identifier but different fields. -/
def albumA2 : Album := ⟨"1", "name2", "book2", "cat2", "j1", "j2", "j3", "j4"⟩

/-- A second concrete album. -/
def albumB : Album := ⟨"2", "nameB", "bookB", "catB", "k1", "k2", "k3", "k4"⟩

/-- A third concrete album. -/
def albumC : Album := ⟨"3", "nameC", "bookC", "catC", "l1", "l2", "l3", "l4"⟩

/-- The store after importing `albumA` into the empty store at time `T0`. -/
def storeA : Store := (importAlbums emptyStore [albumA] "T0").1

/-- State of `storeA` after `albumA` was reviewed through a batch reject. -/
def storeAReviewed : Store := batchUpdateReviewStatus storeA ["1"]

/-- A reviewed status row for `albumB`. -/
def reviewedRowB : AlbumReviewStatus :=
  ⟨"2", "nameB", "bookB", "catB", 1, .reviewed, some 2, some "k2"⟩

/-- A store with `albumA` unreviewed and `albumB` reviewed. -/
def storeMix : Store := ⟨[albumA, albumB], [("2", reviewedRowB)], []⟩

/-- A three-album store with nothing reviewed. -/
def storeABC : Store := ⟨[albumA, albumB, albumC], [], []⟩

/-! ### Association-list lemmas -/

theorem hasKey_cons {α : Type} (p : String × α) (m : KeyMap α) (k : String) :
    hasKey (p :: m) k = ((p.1 == k) || hasKey m k) := by
  simp [hasKey]

theorem hasKey_nil {α : Type} (k : String) : hasKey ([] : KeyMap α) k = false := by
  simp [hasKey]

theorem lookupKey_replace_self {α : Type} (m : KeyMap α) (k : String) (v : α)
    (h : hasKey m k = true) :
    lookupKey (m.map (fun p => if p.1 == k then (k, v) else p)) k = some v := by
  induction m with
  | nil => simp [hasKey] at h
  | cons p rest ih =>
    by_cases hp : p.1 = k
    · simp [lookupKey, hp]
    · rw [hasKey_cons] at h
      have hb : (p.1 == k) = false := by
        simpa using hp
      rw [hb, Bool.false_or] at h
      simp only [List.map_cons, lookupKey, hb, Bool.false_eq_true, if_false]
      exact ih h

theorem lookupKey_replace_ne {α : Type} (m : KeyMap α) (k k' : String) (v : α)
    (h : k' ≠ k) :
    lookupKey (m.map (fun p => if p.1 == k then (k, v) else p)) k' =
      lookupKey m k' := by
  induction m with
  | nil => simp
  | cons p rest ih =>
    by_cases hp : p.1 = k
    · have hb : (k == k') = false := by
        simpa using fun hc => h hc.symm
      have hb2 : (p.1 == k') = false := by
        simpa [hp] using fun hc => h hc.symm
      simp only [List.map_cons, hp, beq_self_eq_true, if_true, lookupKey, hb,
        hb2, Bool.false_eq_true, if_false]
      exact ih
    · have hb : (p.1 == k) = false := by
        simpa using hp
      simp only [List.map_cons, hb, Bool.false_eq_true, if_false, lookupKey]
      by_cases hq : p.1 = k'
      · simp [hq]
      · have hb2 : (p.1 == k') = false := by
          simpa using hq
        simp only [hb2, Bool.false_eq_true, if_false]
        exact ih

theorem lookupKey_append_single_self {α : Type} (m : KeyMap α) (k : String)
    (v : α) (h : hasKey m k = false) :
    lookupKey (m ++ [(k, v)]) k = some v := by
  induction m with
  | nil => simp [lookupKey]
  | cons p rest ih =>
    rw [hasKey_cons] at h
    have hb : (p.1 == k) = false := by
      rcases Bool.eq_false_or_eq_true (p.1 == k) with ht | hf
      · rw [ht, Bool.true_or] at h
        exact absurd h (by simp)
      · exact hf
    rw [hb, Bool.false_or] at h
    simp only [List.cons_append, lookupKey, hb, Bool.false_eq_true, if_false]
    exact ih h

theorem lookupKey_append_single_ne {α : Type} (m : KeyMap α) (k k' : String)
    (v : α) (h : k' ≠ k) :
    lookupKey (m ++ [(k, v)]) k' = lookupKey m k' := by
  induction m with
  | nil =>
    have hb : (k == k') = false := by
      simpa using fun hc => h hc.symm
    simp [lookupKey, hb]
  | cons p rest ih =>
    simp only [List.cons_append, lookupKey]
    by_cases hq : p.1 = k'
    · simp [hq]
    · have hb : (p.1 == k') = false := by
        simpa using hq
      simp only [hb, Bool.false_eq_true, if_false]
      exact ih

theorem lookupKey_setKey_self {α : Type} (m : KeyMap α) (k : String) (v : α) :
    lookupKey (setKey m k v) k = some v := by
  unfold setKey
  by_cases h : hasKey m k = true
  · rw [if_pos h]
    exact lookupKey_replace_self m k v h
  · rw [if_neg h]
    exact lookupKey_append_single_self m k v (by simpa using h)

theorem lookupKey_setKey_ne {α : Type} (m : KeyMap α) (k k' : String) (v : α)
    (h : k' ≠ k) : lookupKey (setKey m k v) k' = lookupKey m k' := by
  unfold setKey
  by_cases hh : hasKey m k = true
  · rw [if_pos hh]
    exact lookupKey_replace_ne m k k' v h
  · rw [if_neg hh]
    exact lookupKey_append_single_ne m k k' v h

theorem mem_setKey {α : Type} {m : KeyMap α} {k : String} {v : α}
    {p : String × α} (h : p ∈ setKey m k v) : p = (k, v) ∨ p ∈ m := by
  unfold setKey at h
  by_cases hh : hasKey m k = true
  · rw [if_pos hh] at h
    rcases List.mem_map.mp h with ⟨q, hq, hfq⟩
    by_cases hqk : q.1 = k
    · left
      rw [← hfq]
      simp [hqk]
    · right
      have hb : (q.1 == k) = false := by
        simpa using hqk
      rw [← hfq, hb]
      simpa using hq
  · rw [if_neg hh] at h
    rcases List.mem_append.mp h with h | h
    · exact Or.inr h
    · exact Or.inl (by simpa using h)

theorem hasKey_iff {α : Type} (m : KeyMap α) (k : String) :
    hasKey m k = true ↔ ∃ p ∈ m, p.1 = k := by
  simp [hasKey, List.any_eq_true]

theorem lookupKey_eq_none_iff_hasKey {α : Type} (m : KeyMap α) (k : String) :
    lookupKey m k = none ↔ hasKey m k = false := by
  induction m with
  | nil => simp [lookupKey, hasKey]
  | cons p rest ih =>
    by_cases hp : p.1 = k
    · simp [lookupKey, hasKey, hp]
    · have hb : (p.1 == k) = false := by
        simpa using hp
      simp [lookupKey, hasKey, hb, ih]

theorem hasKey_setKey {α : Type} (m : KeyMap α) (k k' : String) (v : α) :
    (hasKey (setKey m k v) k' = true) ↔ (hasKey m k' = true ∨ k' = k) := by
  constructor
  · intro h
    rcases (hasKey_iff _ _).mp h with ⟨p, hp, hpk⟩
    rcases mem_setKey hp with hpe | hpm
    · right
      rw [hpe] at hpk
      exact hpk.symm
    · left
      exact (hasKey_iff _ _).mpr ⟨p, hpm, hpk⟩
  · intro h
    rcases h with h | h
    · rcases (hasKey_iff _ _).mp h with ⟨p, hp, hpk⟩
      unfold setKey
      by_cases hh : hasKey m k = true
      · rw [if_pos hh]
        apply (hasKey_iff _ _).mpr
        by_cases hpk2 : p.1 = k
        · refine ⟨(k, v), List.mem_map.mpr ⟨p, hp, by simp [hpk2]⟩, ?_⟩
          rw [← hpk2, hpk]
        · have hb : (p.1 == k) = false := by
            simpa using hpk2
          exact ⟨p, List.mem_map.mpr ⟨p, hp, by simp [hb]⟩, hpk⟩
      · rw [if_neg hh]
        exact (hasKey_iff _ _).mpr ⟨p, List.mem_append_left _ hp, hpk⟩
    · subst h
      have : lookupKey (setKey m k' v) k' = some v := lookupKey_setKey_self m k' v
      by_contra hc
      have hf : hasKey (setKey m k' v) k' = false := by
        simpa using hc
      rw [(lookupKey_eq_none_iff_hasKey _ _).mpr hf] at this
      cases this

/-! ### `findIndex` lemmas -/

theorem findIndex_eq_none_iff {α : Type} (p : α → Bool) (l : List α) :
    findIndex p l = none ↔ ∀ a ∈ l, p a = false := by
  induction l with
  | nil => simp [findIndex]
  | cons x rest ih =>
    by_cases hx : p x = true
    · simp [findIndex, hx]
    · have hxf : p x = false := by simpa using hx
      simp [findIndex, hxf, ih]

theorem findIndex_of_getElem? {α : Type} (p : α → Bool) (l : List α)
    (i : Nat) (a : α) (hget : l[i]? = some a) (hp : p a = true)
    (hfirst : ∀ j b, j < i → l[j]? = some b → p b = false) :
    findIndex p l = some i := by
  induction l generalizing i with
  | nil => simp at hget
  | cons x rest ih =>
    cases i with
    | zero =>
      rw [List.getElem?_cons_zero] at hget
      cases hget
      simp [findIndex, hp]
    | succ j =>
      have hx : p x = false :=
        hfirst 0 x (Nat.succ_pos j) List.getElem?_cons_zero
      rw [List.getElem?_cons_succ] at hget
      have hrest : findIndex p rest = some j := by
        apply ih j hget
        intro j' b hj' hb
        exact hfirst (j' + 1) b (Nat.succ_lt_succ hj')
          (by rw [List.getElem?_cons_succ]; exact hb)
      simp [findIndex, hx, hrest]

theorem getElem?_lt_length {α : Type} {l : List α} {i : Nat} {a : α}
    (h : l[i]? = some a) : i < l.length := by
  rcases List.getElem?_eq_some_iff.mp h with ⟨hlt, _⟩
  exact hlt

/-! ### Batch-reject lemmas -/

theorem foldl_fixed {β γ : Type} (f : β → γ → β) (acc : β) (l : List γ)
    (h : ∀ x ∈ l, f acc x = acc) : l.foldl f acc = acc := by
  induction l with
  | nil => rfl
  | cons k rest ih =>
    rw [List.foldl_cons, h k (List.mem_cons_self k rest)]
    exact ih (fun x hx => h x (List.mem_cons_of_mem k hx))

theorem batchRejectWrite_none (albums : List Album)
    (st : KeyMap AlbumReviewStatus) (id : String)
    (hf : albums.find? (fun a => a.albumId == id) = none) :
    batchRejectWrite albums st id = st := by
  unfold batchRejectWrite
  rw [hf]

theorem batchRejectWrite_some (albums : List Album)
    (st : KeyMap AlbumReviewStatus) (id : String) (album : Album)
    (hf : albums.find? (fun a => a.albumId == id) = some album) :
    batchRejectWrite albums st id = setKey st id (rejectedStatusOf id album) := by
  unfold batchRejectWrite
  rw [hf]

theorem batchRejectStep_none (albums : List Album)
    (st : KeyMap AlbumReviewStatus) (id : String)
    (hl : lookupKey st id = none) :
    batchRejectStep albums st id = batchRejectWrite albums st id := by
  unfold batchRejectStep
  rw [hl]

theorem batchRejectStep_some_reviewed (albums : List Album)
    (st : KeyMap AlbumReviewStatus) (id : String) (ex : AlbumReviewStatus)
    (hl : lookupKey st id = some ex) (hr : ex.reviewStatus = .reviewed) :
    batchRejectStep albums st id = st := by
  unfold batchRejectStep
  rw [hl]
  show (if (ex.reviewStatus == ReviewStatusV.reviewed) = true then st
    else batchRejectWrite albums st id) = st
  rw [hr]
  simp

theorem batchRejectStep_some_unreviewed (albums : List Album)
    (st : KeyMap AlbumReviewStatus) (id : String) (ex : AlbumReviewStatus)
    (hl : lookupKey st id = some ex) (hr : ex.reviewStatus = .unreviewed) :
    batchRejectStep albums st id = batchRejectWrite albums st id := by
  unfold batchRejectStep
  rw [hl]
  show (if (ex.reviewStatus == ReviewStatusV.reviewed) = true then st
    else batchRejectWrite albums st id) = batchRejectWrite albums st id
  rw [hr]
  simp

theorem batchRejectStep_cases (albums : List Album)
    (st : KeyMap AlbumReviewStatus) (id : String) :
    batchRejectStep albums st id = st ∨
    ∃ album, albums.find? (fun a => a.albumId == id) = some album ∧
      batchRejectStep albums st id = setKey st id (rejectedStatusOf id album) := by
  cases hl : lookupKey st id with
  | none =>
    cases hf : albums.find? (fun a => a.albumId == id) with
    | none =>
      exact Or.inl ((batchRejectStep_none albums st id hl).trans
        (batchRejectWrite_none albums st id hf))
    | some album =>
      exact Or.inr ⟨album, rfl, (batchRejectStep_none albums st id hl).trans
        (batchRejectWrite_some albums st id album hf)⟩
  | some ex =>
    cases hr : ex.reviewStatus with
    | reviewed => exact Or.inl (batchRejectStep_some_reviewed albums st id ex hl hr)
    | unreviewed =>
      cases hf : albums.find? (fun a => a.albumId == id) with
      | none =>
        exact Or.inl ((batchRejectStep_some_unreviewed albums st id ex hl hr).trans
          (batchRejectWrite_none albums st id hf))
      | some album =>
        exact Or.inr ⟨album, rfl,
          (batchRejectStep_some_unreviewed albums st id ex hl hr).trans
            (batchRejectWrite_some albums st id album hf)⟩

theorem lookupKey_batchRejectStep_ne (albums : List Album)
    (st : KeyMap AlbumReviewStatus) (stepId k : String) (h : k ≠ stepId) :
    lookupKey (batchRejectStep albums st stepId) k = lookupKey st k := by
  rcases batchRejectStep_cases albums st stepId with he | ⟨album, _, he⟩
  · rw [he]
  · rw [he]
    exact lookupKey_setKey_ne st stepId k _ h

theorem lookupKey_foldl_reject_reviewed (albums : List Album)
    (ids : List String) (st : KeyMap AlbumReviewStatus) (id : String)
    (ex : AlbumReviewStatus) (hl : lookupKey st id = some ex)
    (hr : ex.reviewStatus = .reviewed) :
    lookupKey (ids.foldl (batchRejectStep albums) st) id = some ex := by
  induction ids generalizing st with
  | nil => simpa using hl
  | cons k rest ih =>
    rw [List.foldl_cons]
    apply ih
    by_cases hk : k = id
    · subst hk
      rw [batchRejectStep_some_reviewed albums st k ex hl hr]
      exact hl
    · rw [lookupKey_batchRejectStep_ne albums st k id (fun hc => hk hc.symm)]
      exact hl

theorem foldl_reject_mem_reviewed (albums : List Album) (ids : List String)
    (st : KeyMap AlbumReviewStatus) (id : String) (album : Album)
    (hmem : id ∈ ids)
    (hf : albums.find? (fun a => a.albumId == id) = some album) :
    ∃ r, lookupKey (ids.foldl (batchRejectStep albums) st) id = some r ∧
      r.reviewStatus = .reviewed := by
  induction ids generalizing st with
  | nil => cases hmem
  | cons k rest ih =>
    rw [List.foldl_cons]
    by_cases hk : k = id
    · subst hk
      cases hl : lookupKey st k with
      | none =>
        rw [batchRejectStep_none albums st k hl,
          batchRejectWrite_some albums st k album hf]
        exact ⟨rejectedStatusOf k album,
          lookupKey_foldl_reject_reviewed albums rest _ k _
            (lookupKey_setKey_self st k _) rfl, rfl⟩
      | some ex =>
        cases hr : ex.reviewStatus with
        | reviewed =>
          rw [batchRejectStep_some_reviewed albums st k ex hl hr]
          exact ⟨ex, lookupKey_foldl_reject_reviewed albums rest st k ex hl hr,
            hr⟩
        | unreviewed =>
          rw [batchRejectStep_some_unreviewed albums st k ex hl hr,
            batchRejectWrite_some albums st k album hf]
          exact ⟨rejectedStatusOf k album,
            lookupKey_foldl_reject_reviewed albums rest _ k _
              (lookupKey_setKey_self st k _) rfl, rfl⟩
    · have hmem' : id ∈ rest := by
        rcases List.mem_cons.mp hmem with he | hm
        · exact absurd he.symm hk
        · exact hm
      exact ih (batchRejectStep albums st k) hmem'

theorem foldl_reject_idem (albums : List Album) (ids : List String)
    (st : KeyMap AlbumReviewStatus) :
    ids.foldl (batchRejectStep albums) (ids.foldl (batchRejectStep albums) st)
      = ids.foldl (batchRejectStep albums) st := by
  apply foldl_fixed
  intro id hid
  cases hf : albums.find? (fun a => a.albumId == id) with
  | none =>
    cases hl : lookupKey (ids.foldl (batchRejectStep albums) st) id with
    | none =>
      rw [batchRejectStep_none albums _ id hl, batchRejectWrite_none albums _ id hf]
    | some ex =>
      cases hr : ex.reviewStatus with
      | reviewed => rw [batchRejectStep_some_reviewed albums _ id ex hl hr]
      | unreviewed =>
        rw [batchRejectStep_some_unreviewed albums _ id ex hl hr,
          batchRejectWrite_none albums _ id hf]
  | some album =>
    obtain ⟨r, hlr, hrr⟩ :=
      foldl_reject_mem_reviewed albums ids st id album hid hf
    rw [batchRejectStep_some_reviewed albums _ id r hlr hrr]

theorem foldl_reject_writes (albums : List Album) (ids : List String)
    (st : KeyMap AlbumReviewStatus) (id : String) (album : Album)
    (hmem : id ∈ ids)
    (hf : albums.find? (fun a => a.albumId == id) = some album)
    (hu : lookupKey st id = none ∨
      ∃ ex, lookupKey st id = some ex ∧ ex.reviewStatus = .unreviewed) :
    lookupKey (ids.foldl (batchRejectStep albums) st) id =
      some (rejectedStatusOf id album) := by
  induction ids generalizing st with
  | nil => cases hmem
  | cons k rest ih =>
    rw [List.foldl_cons]
    by_cases hk : k = id
    · subst hk
      have hstep : batchRejectStep albums st k =
          setKey st k (rejectedStatusOf k album) := by
        rcases hu with hnone | ⟨ex, hex, hexu⟩
        · rw [batchRejectStep_none albums st k hnone,
            batchRejectWrite_some albums st k album hf]
        · rw [batchRejectStep_some_unreviewed albums st k ex hex hexu,
            batchRejectWrite_some albums st k album hf]
      rw [hstep]
      exact lookupKey_foldl_reject_reviewed albums rest _ k _
        (lookupKey_setKey_self st k _) rfl
    · have hmem' : id ∈ rest := by
        rcases List.mem_cons.mp hmem with he | hm
        · exact absurd he.symm hk
        · exact hm
      have hlu : lookupKey (batchRejectStep albums st k) id = lookupKey st id :=
        lookupKey_batchRejectStep_ne albums st k id (fun hc => hk hc.symm)
      apply ih (batchRejectStep albums st k) hmem'
      rw [hlu]
      exact hu

theorem foldl_reject_no_album (albums : List Album) (ids : List String)
    (st : KeyMap AlbumReviewStatus) (id : String)
    (hf : albums.find? (fun a => a.albumId == id) = none) :
    lookupKey (ids.foldl (batchRejectStep albums) st) id = lookupKey st id := by
  induction ids generalizing st with
  | nil => rfl
  | cons k rest ih =>
    rw [List.foldl_cons, ih (batchRejectStep albums st k)]
    by_cases hk : k = id
    · subst hk
      cases hl : lookupKey st k with
      | none =>
        rw [batchRejectStep_none albums st k hl,
          batchRejectWrite_none albums st k hf, hl]
      | some ex =>
        cases hr : ex.reviewStatus with
        | reviewed =>
          rw [batchRejectStep_some_reviewed albums st k ex hl hr]
          exact hl
        | unreviewed =>
          rw [batchRejectStep_some_unreviewed albums st k ex hl hr,
            batchRejectWrite_none albums st k hf]
          exact hl
    · exact lookupKey_batchRejectStep_ne albums st k id (fun hc => hk hc.symm)

/-! ### Import lemmas -/

theorem statusUnreviewed_eq_false_iff (s : Store) (id : String) :
    statusUnreviewed s id = false ↔
    ∃ st, lookupKey s.status id = some st ∧ st.reviewStatus = .reviewed := by
  unfold statusUnreviewed
  cases hl : lookupKey s.status id with
  | none => simp
  | some ex =>
    cases hr : ex.reviewStatus with
    | reviewed => simp [hr]
    | unreviewed => simp [hr]

theorem importPhase1Step_reviewed (s : Store)
    (acc : KeyMap Album × KeyMap AlbumMeta) (album : Album)
    (st : AlbumReviewStatus)
    (hl : lookupKey s.status album.albumId = some st)
    (hr : st.reviewStatus = .reviewed) :
    importPhase1Step s acc album =
      (setKey acc.1 album.albumId album,
       match lookupKey s.meta album.albumId with
       | some m => setKey acc.2 album.albumId m
       | none => acc.2) := by
  unfold importPhase1Step
  rw [hl]
  show (if (st.reviewStatus == ReviewStatusV.reviewed) = true then _ else acc)
    = _
  rw [hr]
  simp

theorem importPhase1Step_skip (s : Store)
    (acc : KeyMap Album × KeyMap AlbumMeta) (album : Album)
    (hu : statusUnreviewed s album.albumId = true) :
    importPhase1Step s acc album = acc := by
  unfold importPhase1Step
  unfold statusUnreviewed at hu
  cases hl : lookupKey s.status album.albumId with
  | none => rfl
  | some ex =>
    rw [hl] at hu
    have hu' : (ex.reviewStatus == ReviewStatusV.unreviewed) = true := hu
    have hue : ex.reviewStatus = .unreviewed := by simpa using hu'
    show (if (ex.reviewStatus == ReviewStatusV.reviewed) = true then _ else acc)
      = acc
    rw [hue]
    simp

theorem hasKey_append {α : Type} (m m' : KeyMap α) (k : String) :
    hasKey (m ++ m') k = (hasKey m k || hasKey m' k) := by
  simp [hasKey, List.any_append]

theorem phase1_fst_entry_ids (s : Store) (l : List Album)
    (acc : KeyMap Album × KeyMap AlbumMeta)
    (h : ∀ p ∈ acc.1, p.2.albumId = p.1) :
    ∀ p ∈ (l.foldl (importPhase1Step s) acc).1, p.2.albumId = p.1 := by
  induction l generalizing acc with
  | nil => exact h
  | cons a rest ih =>
    rw [List.foldl_cons]
    apply ih
    intro p hp
    rcases hsu : statusUnreviewed s a.albumId with hfalse | htrue
    · rcases (statusUnreviewed_eq_false_iff s a.albumId).mp hsu with ⟨st, hl, hr⟩
      rw [importPhase1Step_reviewed s acc a st hl hr] at hp
      rcases mem_setKey hp with he | hm
      · rw [he]
      · exact h p hm
    · rw [importPhase1Step_skip s acc a hsu] at hp
      exact h p hp

theorem phase2_fst_entry_ids (nowIso : String) (l : List Album)
    (acc : KeyMap Album × KeyMap AlbumMeta × Nat)
    (h : ∀ p ∈ acc.1, p.2.albumId = p.1) :
    ∀ p ∈ (l.foldl (importPhase2Step nowIso) acc).1, p.2.albumId = p.1 := by
  induction l generalizing acc with
  | nil => exact h
  | cons a rest ih =>
    rw [List.foldl_cons]
    apply ih
    intro p hp
    rcases mem_setKey hp with he | hm
    · rw [he]
    · exact h p hm

theorem importMaps_entry_ids (s : Store) (newAlbums : List Album)
    (nowIso : String) :
    ∀ p ∈ (importMaps s newAlbums nowIso).1, p.2.albumId = p.1 := by
  unfold importMaps
  apply phase2_fst_entry_ids
  show ∀ p ∈ (importPhase1 s).1, p.2.albumId = p.1
  unfold importPhase1
  apply phase1_fst_entry_ids
  intro p hp
  cases hp

theorem hasKey_phase1_fst_imp (s : Store) (l : List Album)
    (acc : KeyMap Album × KeyMap AlbumMeta) (k : String)
    (h : hasKey (l.foldl (importPhase1Step s) acc).1 k = true) :
    hasKey acc.1 k = true ∨
    ∃ a ∈ l, a.albumId = k ∧ statusUnreviewed s k = false := by
  induction l generalizing acc with
  | nil => exact Or.inl h
  | cons a rest ih =>
    rw [List.foldl_cons] at h
    rcases ih (importPhase1Step s acc a) h with hacc | ⟨b, hb, hbk, hbu⟩
    · rcases hsu : statusUnreviewed s a.albumId with hfalse | htrue
      · rcases (statusUnreviewed_eq_false_iff s a.albumId).mp hsu with
          ⟨st, hl, hr⟩
        rw [importPhase1Step_reviewed s acc a st hl hr] at hacc
        rcases (hasKey_setKey acc.1 a.albumId k a).mp hacc with hm | hk
        · exact Or.inl hm
        · subst hk
          exact Or.inr ⟨a, List.mem_cons_self a rest, rfl, hsu⟩
      · rw [importPhase1Step_skip s acc a hsu] at hacc
        exact Or.inl hacc
    · exact Or.inr ⟨b, List.mem_cons_of_mem a hb, hbk, hbu⟩

theorem hasKey_phase2_fst_imp (nowIso : String) (l : List Album)
    (acc : KeyMap Album × KeyMap AlbumMeta × Nat) (k : String)
    (h : hasKey (l.foldl (importPhase2Step nowIso) acc).1 k = true) :
    hasKey acc.1 k = true ∨ ∃ b ∈ l, b.albumId = k := by
  induction l generalizing acc with
  | nil => exact Or.inl h
  | cons a rest ih =>
    rw [List.foldl_cons] at h
    rcases ih (importPhase2Step nowIso acc a) h with hacc | ⟨b, hb, hbk⟩
    · rcases (hasKey_setKey acc.1 a.albumId k a).mp hacc with hm | hk
      · exact Or.inl hm
      · exact Or.inr ⟨a, List.mem_cons_self a rest, hk.symm⟩
    · exact Or.inr ⟨b, List.mem_cons_of_mem a hb, hbk⟩

theorem hasKey_importMaps_false (s : Store) (newAlbums : List Album)
    (nowIso : String) (k : String) (hu : statusUnreviewed s k = true)
    (hn : ∀ b ∈ newAlbums, b.albumId ≠ k) :
    hasKey (importMaps s newAlbums nowIso).1 k = false := by
  rcases Bool.eq_false_or_eq_true
    (hasKey (importMaps s newAlbums nowIso).1 k) with ht | hf
  · exfalso
    unfold importMaps at ht
    rcases hasKey_phase2_fst_imp nowIso newAlbums _ k ht with h1 | ⟨b, hb, hbk⟩
    · rcases hasKey_phase1_fst_imp s s.albums _ k h1 with h0 | ⟨a, _, _, hau⟩
      · rw [hasKey_nil] at h0
        cases h0
      · rw [hu] at hau
        cases hau
    · exact hn b hb hbk
  · exact hf

theorem importAlbums_albums (s : Store) (n : List Album) (t : String) :
    (importAlbums s n t).1.albums = (importMaps s n t).1.map (fun p => p.2) :=
  rfl

theorem importAlbums_status (s : Store) (n : List Album) (t : String) :
    (importAlbums s n t).1.status =
      s.status.filter (fun p => hasKey (importMaps s n t).1 p.1) := rfl

theorem importAlbums_meta (s : Store) (n : List Album) (t : String) :
    (importAlbums s n t).1.meta =
      (importMaps s n t).2.1.filter (fun p => hasKey (importMaps s n t).1 p.1) :=
  rfl

theorem importAlbums_counts (s : Store) (n : List Album) (t : String) :
    (importAlbums s n t).2 = (n.length, (importMaps s n t).2.2) := rfl

theorem phase1_fst_eq (s : Store) (l : List Album) (m : KeyMap Album)
    (mm : KeyMap AlbumMeta) (hnd : (l.map Album.albumId).Nodup)
    (hdisj : ∀ a ∈ l, hasKey m a.albumId = false) :
    (l.foldl (importPhase1Step s) (m, mm)).1 =
      m ++ (l.filter (fun a => !(statusUnreviewed s a.albumId))).map
        (fun a => (a.albumId, a)) := by
  induction l generalizing m mm with
  | nil => simp
  | cons a rest ih =>
    rw [List.map_cons, List.nodup_cons] at hnd
    have hnotin : a.albumId ∉ rest.map Album.albumId := hnd.1
    have hnd' : (rest.map Album.albumId).Nodup := hnd.2
    rw [List.foldl_cons]
    cases hsu : statusUnreviewed s a.albumId with
    | false =>
      obtain ⟨st, hl, hr⟩ := (statusUnreviewed_eq_false_iff s a.albumId).mp hsu
      rw [importPhase1Step_reviewed s (m, mm) a st hl hr]
      have hset : setKey m a.albumId a = m ++ [(a.albumId, a)] := by
        unfold setKey
        rw [hdisj a (List.mem_cons_self a rest)]
        simp
      have hdisj' : ∀ b ∈ rest,
          hasKey (m ++ [(a.albumId, a)]) b.albumId = false := by
        intro b hb
        rw [hasKey_append]
        have h1 : hasKey m b.albumId = false :=
          hdisj b (List.mem_cons_of_mem a hb)
        have hne : a.albumId ≠ b.albumId := fun hc =>
          hnotin (hc ▸ List.mem_map_of_mem Album.albumId hb)
        have h2 : hasKey [(a.albumId, a)] b.albumId = false := by
          simp [hasKey, hne]
        rw [h1, h2]
        rfl
      rw [hset]
      rw [ih (m ++ [(a.albumId, a)])
        (match lookupKey s.meta a.albumId with
         | some mrow => setKey mm a.albumId mrow
         | none => mm) hnd' hdisj']
      rw [List.filter_cons]
      rw [hsu]
      simp
    | true =>
      rw [importPhase1Step_skip s (m, mm) a hsu]
      rw [ih m mm hnd' (fun b hb => hdisj b (List.mem_cons_of_mem a hb))]
      rw [List.filter_cons, hsu]
      simp

theorem importPhase1_fst_eq (s : Store)
    (hnd : (s.albums.map Album.albumId).Nodup) :
    (importPhase1 s).1 =
      (s.albums.filter (fun a => !(statusUnreviewed s a.albumId))).map
        (fun a => (a.albumId, a)) := by
  unfold importPhase1
  have h := phase1_fst_eq s s.albums [] [] hnd
    (fun a _ => hasKey_nil a.albumId)
  simpa using h

/-! ### Cross-collection invariant machinery -/

/-- The spec's cross-collection invariant: every status or meta key belongs
to an album currently in the Albums collection. -/
def keysSub (s : Store) : Prop :=
  (∀ p ∈ s.status, ∃ a ∈ s.albums, a.albumId = p.1) ∧
  (∀ p ∈ s.meta, ∃ a ∈ s.albums, a.albumId = p.1)

theorem keysSub_importAlbums (s : Store) (n : List Album) (t : String) :
    keysSub (importAlbums s n t).1 := by
  constructor
  · intro p hp
    rw [importAlbums_status] at hp
    have hk : hasKey (importMaps s n t).1 p.1 = true :=
      (List.mem_filter.mp hp).2
    obtain ⟨q, hq, hqk⟩ := (hasKey_iff _ _).mp hk
    refine ⟨q.2, ?_, ?_⟩
    · rw [importAlbums_albums]
      exact List.mem_map_of_mem (fun r => r.2) hq
    · rw [importMaps_entry_ids s n t q hq, hqk]
  · intro p hp
    rw [importAlbums_meta] at hp
    have hk : hasKey (importMaps s n t).1 p.1 = true :=
      (List.mem_filter.mp hp).2
    obtain ⟨q, hq, hqk⟩ := (hasKey_iff _ _).mp hk
    refine ⟨q.2, ?_, ?_⟩
    · rw [importAlbums_albums]
      exact List.mem_map_of_mem (fun r => r.2) hq
    · rw [importMaps_entry_ids s n t q hq, hqk]

theorem updateAlbumReviewStatus_of_find_none (s : Store) (id : String)
    (patch : PartialStatus)
    (hf : s.albums.find? (fun a => a.albumId == id) = none) :
    updateAlbumReviewStatus s id patch = .error .notFound := by
  unfold updateAlbumReviewStatus
  rw [hf]

theorem updateAlbumReviewStatus_of_find_some (s : Store) (id : String)
    (patch : PartialStatus) (album : Album)
    (hf : s.albums.find? (fun a => a.albumId == id) = some album) :
    ∃ ns, updateAlbumReviewStatus s id patch =
      .ok { s with status := setKey s.status id ns } := by
  unfold updateAlbumReviewStatus
  rw [hf]
  exact ⟨_, rfl⟩

theorem keysSub_updateStatus (s : Store) (id : String) (patch : PartialStatus)
    (s' : Store) (h : keysSub s)
    (hok : updateAlbumReviewStatus s id patch = .ok s') : keysSub s' := by
  cases hf : s.albums.find? (fun a => a.albumId == id) with
  | none =>
    rw [updateAlbumReviewStatus_of_find_none s id patch hf] at hok
    cases hok
  | some album =>
    obtain ⟨ns, hns⟩ := updateAlbumReviewStatus_of_find_some s id patch album hf
    rw [hns] at hok
    cases hok
    constructor
    · intro p hp
      rcases mem_setKey hp with he | hm
      · refine ⟨album, List.mem_of_find?_eq_some hf, ?_⟩
        have := List.find?_some hf
        rw [he]
        simpa using this
      · exact h.1 p hm
    · exact h.2

theorem foldl_reject_entries (albums : List Album) (l : List String)
    (st : KeyMap AlbumReviewStatus)
    (h : ∀ p ∈ st, ∃ a ∈ albums, a.albumId = p.1) :
    ∀ p ∈ l.foldl (batchRejectStep albums) st, ∃ a ∈ albums, a.albumId = p.1 := by
  induction l generalizing st with
  | nil => exact h
  | cons k rest ih =>
    rw [List.foldl_cons]
    apply ih
    intro p hp
    rcases batchRejectStep_cases albums st k with he | ⟨album, hf, he⟩
    · rw [he] at hp
      exact h p hp
    · rw [he] at hp
      rcases mem_setKey hp with hpe | hpm
      · refine ⟨album, List.mem_of_find?_eq_some hf, ?_⟩
        have := List.find?_some hf
        rw [hpe]
        simpa using this
      · exact h p hpm

theorem keysSub_batchReject (s : Store) (ids : List String) (h : keysSub s) :
    keysSub (batchUpdateReviewStatus s ids) := by
  constructor
  · exact foldl_reject_entries s.albums ids s.status h.1
  · exact h.2

theorem keysSub_deleteAlbums (s : Store) (ids : List String) (h : keysSub s) :
    keysSub (deleteAlbums s ids).1 := by
  unfold deleteAlbums
  by_cases he : (ids.dedup).isEmpty = true
  · simp only [he, if_true]
    exact h
  · simp only [he, Bool.false_eq_true, if_false]
    constructor
    · intro p hp
      have hmem := (List.mem_filter.mp hp).1
      have hkeep := (List.mem_filter.mp hp).2
      obtain ⟨a, ha, hak⟩ := h.1 p hmem
      refine ⟨a, List.mem_filter.mpr ⟨ha, ?_⟩, hak⟩
      rw [hak]
      exact hkeep
    · intro p hp
      have hmem := (List.mem_filter.mp hp).1
      have hkeep := (List.mem_filter.mp hp).2
      obtain ⟨a, ha, hak⟩ := h.2 p hmem
      refine ⟨a, List.mem_filter.mpr ⟨ha, ?_⟩, hak⟩
      rw [hak]
      exact hkeep

theorem keysSub_applyOp (s : Store) (o : Op) (h : keysSub s) :
    keysSub (applyOp s o) := by
  cases o with
  | importBatch n t => exact keysSub_importAlbums s n t
  | updateStatus id patch =>
    show keysSub (match updateAlbumReviewStatus s id patch with
      | Except.ok s' => s'
      | Except.error _ => s)
    cases hu : updateAlbumReviewStatus s id patch with
    | ok s' => exact keysSub_updateStatus s id patch s' h hu
    | error e => exact h
  | batchReject ids => exact keysSub_batchReject s ids h
  | deleteRecords ids => exact keysSub_deleteAlbums s ids h

theorem keysSub_runOps (s : Store) (ops : List Op) (h : keysSub s) :
    keysSub (runOps s ops) := by
  induction ops generalizing s with
  | nil => exact h
  | cons o rest ih =>
    unfold runOps
    rw [List.foldl_cons]
    exact ih (applyOp s o) (keysSub_applyOp s o h)

/-! ### Remaining helpers -/

theorem statusUnreviewed_eq_true_iff (s : Store) (id : String) :
    statusUnreviewed s id = true ↔
    (lookupKey s.status id = none ∨
      ∃ ex, lookupKey s.status id = some ex ∧
        ex.reviewStatus = .unreviewed) := by
  unfold statusUnreviewed
  cases hl : lookupKey s.status id with
  | none => simp
  | some ex =>
    cases hr : ex.reviewStatus with
    | reviewed => simp [hr]
    | unreviewed => simp [hr]

theorem string_contains_iff (l : List String) (a : String) :
    l.contains a = true ↔ a ∈ l := by
  induction l with
  | nil => simp
  | cons x rest ih =>
    simp only [List.contains_cons, Bool.or_eq_true, beq_iff_eq, ih,
      List.mem_cons]

theorem dedup_contains_eq (ids : List String) (x : String) :
    ids.dedup.contains x = ids.contains x := by
  by_cases hx : x ∈ ids
  · rw [(string_contains_iff ids x).mpr hx,
      (string_contains_iff ids.dedup x).mpr (List.mem_dedup.mpr hx)]
  · have h1 : ids.contains x = false := by
      rcases Bool.eq_false_or_eq_true (ids.contains x) with ht | hf
      · exact absurd ((string_contains_iff ids x).mp ht) hx
      · exact hf
    have h2 : ids.dedup.contains x = false := by
      rcases Bool.eq_false_or_eq_true (ids.dedup.contains x) with ht | hf
      · exact absurd (List.mem_dedup.mp ((string_contains_iff ids.dedup x).mp ht)) hx
      · exact hf
    rw [h1, h2]

theorem deleteAlbums_nil (s : Store) : deleteAlbums s [] = (s, 0) := rfl

theorem deleteAlbums_eq_of_ne (s : Store) (ids : List String) (h : ids ≠ []) :
    deleteAlbums s ids =
      (⟨s.albums.filter (fun a => !(ids.dedup.contains a.albumId)),
        s.status.filter (fun p => !(ids.dedup.contains p.1)),
        s.meta.filter (fun p => !(ids.dedup.contains p.1))⟩,
       ids.dedup.length) := by
  have hne : (ids.dedup).isEmpty = false := by
    rcases Bool.eq_false_or_eq_true (ids.dedup).isEmpty with ht | hf
    · exact absurd ((List.dedup_eq_nil ids).mp (List.isEmpty_iff.mp ht)) h
    · exact hf
  simp only [deleteAlbums, hne, Bool.false_eq_true, if_false]

theorem getNext_of_empty (s : Store) (current : String)
    (h : (unreviewedAlbums s).length = 0) :
    getNextUnreviewedAlbumId s current = none := by
  simp [getNextUnreviewedAlbumId, h]

theorem getNext_of_findIndex_none (s : Store) (current : String)
    (h : ((unreviewedAlbums s).length == 0) = false)
    (hfi : findIndex (fun a => a.albumId == current) (unreviewedAlbums s)
      = none) :
    getNextUnreviewedAlbumId s current =
      (unreviewedAlbums s).head?.map Album.albumId := by
  simp only [getNextUnreviewedAlbumId, h, Bool.false_eq_true, if_false, hfi]

theorem getNext_of_findIndex_some (s : Store) (current : String) (i : Nat)
    (h : ((unreviewedAlbums s).length == 0) = false)
    (hfi : findIndex (fun a => a.albumId == current) (unreviewedAlbums s)
      = some i) :
    getNextUnreviewedAlbumId s current =
      (if (unreviewedAlbums s).length - 1 ≤ i then none
       else ((unreviewedAlbums s)[i + 1]?).map Album.albumId) := by
  simp only [getNextUnreviewedAlbumId, h, Bool.false_eq_true, if_false, hfi]

theorem clamp_join (T U P : Int) (hT : 0 ≤ T) (hU : U ≤ T) (hP : 0 ≤ P) :
    min (max (if 0 < P then max 0 (T - U) + P else max 0 (T - U)) 0) T =
      claimProgressValue T U P := by
  unfold claimProgressValue
  by_cases hPp : 0 < P
  · rw [if_pos hPp]
    simp only [max_def, min_def]
    split_ifs <;> omega
  · rw [if_neg hPp]
    have hP0 : P = 0 := le_antisymm (not_lt.mp hPp) hP
    subst hP0
    simp only [max_def, min_def, add_zero]
    split_ifs <;> omega

theorem lookupKey_filter_of_false {α : Type} (m : KeyMap α)
    (f : String × α → Bool) (k : String) (h : ∀ v, f (k, v) = false) :
    lookupKey (m.filter f) k = none := by
  induction m with
  | nil => simp [lookupKey]
  | cons p rest ih =>
    by_cases hp : p.1 = k
    · have hpf : f p = false := by
        have hpe : p = (k, p.2) := by
          cases p
          simp_all
        rw [hpe]
        exact h p.2
      simp only [List.filter_cons, hpf, Bool.false_eq_true, if_false]
      exact ih
    · have hb : (p.1 == k) = false := by
        simpa using hp
      by_cases hkeep : f p = true
      · simp only [List.filter_cons, hkeep, if_true, lookupKey, hb,
          Bool.false_eq_true, if_false]
        exact ih
      · have hkf : f p = false := by
          rcases Bool.eq_false_or_eq_true (f p) with ht | hf
          · exact absurd ht hkeep
          · exact hf
        simp only [List.filter_cons, hkf, Bool.false_eq_true, if_false]
        exact ih

theorem lookupKey_filter_of_true {α : Type} (m : KeyMap α)
    (f : String × α → Bool) (k : String) (h : ∀ v, f (k, v) = true) :
    lookupKey (m.filter f) k = lookupKey m k := by
  induction m with
  | nil => simp
  | cons p rest ih =>
    by_cases hp : p.1 = k
    · have hpt : f p = true := by
        have hpe : p = (k, p.2) := by
          cases p
          simp_all
        rw [hpe]
        exact h p.2
      simp [List.filter_cons, hpt, lookupKey, hp]
    · have hb : (p.1 == k) = false := by
        simpa using hp
      by_cases hkeep : f p = true
      · simp only [List.filter_cons, hkeep, if_true, lookupKey, hb,
          Bool.false_eq_true, if_false]
        exact ih
      · have hkf : f p = false := by
          rcases Bool.eq_false_or_eq_true (f p) with ht | hf
          · exact absurd ht hkeep
          · exact hf
        simp only [List.filter_cons, hkf, Bool.false_eq_true, if_false,
          lookupKey, hb]
        exact ih

theorem import_removed_of_hasKey_false (s : Store) (n : List Album)
    (t : String) (k : String)
    (hk : hasKey (importMaps s n t).1 k = false) :
    (∀ x ∈ (importAlbums s n t).1.albums, x.albumId ≠ k) ∧
    lookupKey (importAlbums s n t).1.status k = none ∧
    lookupKey (importAlbums s n t).1.meta k = none := by
  refine ⟨?_, ?_, ?_⟩
  · intro x hx
    rw [importAlbums_albums] at hx
    rcases List.mem_map.mp hx with ⟨q, hq, hqx⟩
    intro hc
    have hkt : hasKey (importMaps s n t).1 k = true := by
      apply (hasKey_iff _ _).mpr
      exact ⟨q, hq, by rw [← importMaps_entry_ids s n t q hq, hqx, hc]⟩
    rw [hkt] at hk
    cases hk
  · rw [importAlbums_status]
    exact lookupKey_filter_of_false s.status _ k (fun v => hk)
  · rw [importAlbums_meta]
    exact lookupKey_filter_of_false (importMaps s n t).2.1 _ k (fun v => hk)

/-! ### Claims -/

/-- C1 (code bug evaluation): with album `"1"` reviewed, re-importing a row
with identifier `"1"` and different fields replaces the Album row with the
incoming row and restamps the ImportMeta row with the new import time, so
the Album row and ImportMeta row are not preserved; only the ReviewStatus
row is kept, while `imported` and `duplicates` both count the row. -/
theorem import_overwrites_reviewed_rows :
    statusUnreviewed storeAReviewed "1" = false ∧
    storeAReviewed.albums = [albumA] ∧
    lookupKey storeAReviewed.meta "1" = some ⟨"1", "T0"⟩ ∧
    (importAlbums storeAReviewed [albumA2] "T1").1.albums = [albumA2] ∧
    lookupKey (importAlbums storeAReviewed [albumA2] "T1").1.meta "1" =
      some ⟨"1", "T1"⟩ ∧
    lookupKey (importAlbums storeAReviewed [albumA2] "T1").1.status "1" =
      lookupKey storeAReviewed.status "1" ∧
    (importAlbums storeAReviewed [albumA2] "T1").2 = (1, 1) := by
  decide

/-- C2 (counterexample): importing the empty batch into a store holding one
unreviewed album deletes that album together with its ImportMeta row, so
the three collections are not all unchanged, although the call does return
imported 0 and duplicates 0. -/
theorem import_empty_not_noop :
    storeA.albums = [albumA] ∧
    lookupKey storeA.meta "1" = some ⟨"1", "T0"⟩ ∧
    (importAlbums storeA [] "T1").1.albums = [] ∧
    (importAlbums storeA [] "T1").1.meta = [] ∧
    (importAlbums storeA [] "T1").2 = (0, 0) := by
  decide

/-- C2 (amended): importBatch on an empty batch returns imported 0 and
duplicates 0, but instead of leaving the collections unchanged it keeps
exactly the albums whose ReviewStatus is Reviewed and removes every
identifier whose status is absent or Unreviewed from Albums, ReviewStatus,
and ImportMeta (stated for stores whose album identifiers are
duplicate-free). -/
theorem import_empty_keeps_only_reviewed (s : Store) (t : String)
    (hnd : (s.albums.map Album.albumId).Nodup) :
    (importAlbums s [] t).2 = (0, 0) ∧
    (importAlbums s [] t).1.albums =
      s.albums.filter (fun a => !(statusUnreviewed s a.albumId)) ∧
    (∀ id, statusUnreviewed s id = true →
      (∀ x ∈ (importAlbums s [] t).1.albums, x.albumId ≠ id) ∧
      lookupKey (importAlbums s [] t).1.status id = none ∧
      lookupKey (importAlbums s [] t).1.meta id = none) := by
  refine ⟨rfl, ?_, ?_⟩
  · rw [importAlbums_albums]
    have h1 : (importMaps s [] t).1 = (importPhase1 s).1 := rfl
    rw [h1, importPhase1_fst_eq s hnd, List.map_map]
    have h2 : ((fun p => p.2) ∘ fun a => (a.albumId, a)) = fun a : Album => a :=
      rfl
    rw [h2, List.map_id']
  · intro id hu
    exact import_removed_of_hasKey_false s [] t id
      (hasKey_importMaps_false s [] t id hu (fun b hb => absurd hb
        (List.not_mem_nil b)))

/-- C2 amended, witnessed on a store with one unreviewed and one reviewed
album. -/
theorem import_empty_keeps_only_reviewed_witness :
    (importAlbums storeMix [] "T9").2 = (0, 0) ∧
    (importAlbums storeMix [] "T9").1.albums =
      storeMix.albums.filter
        (fun a => !(statusUnreviewed storeMix a.albumId)) ∧
    lookupKey (importAlbums storeMix [] "T9").1.status "1" = none := by
  have h := import_empty_keeps_only_reviewed storeMix "T9" (by decide)
  exact ⟨h.1, h.2.1, (h.2.2 "1" (by decide)).2.1⟩

/-- C3: every pre-existing album whose status is absent or Unreviewed and
whose identifier is not in the incoming batch is removed from Albums,
ReviewStatus, and ImportMeta by an import. -/
theorem import_drops_unreviewed_not_in_batch (s : Store)
    (newAlbums : List Album) (t : String) (a : Album) (_ha : a ∈ s.albums)
    (hu : statusUnreviewed s a.albumId = true)
    (hn : ∀ b ∈ newAlbums, b.albumId ≠ a.albumId) :
    (∀ x ∈ (importAlbums s newAlbums t).1.albums, x.albumId ≠ a.albumId) ∧
    lookupKey (importAlbums s newAlbums t).1.status a.albumId = none ∧
    lookupKey (importAlbums s newAlbums t).1.meta a.albumId = none :=
  import_removed_of_hasKey_false s newAlbums t a.albumId
    (hasKey_importMaps_false s newAlbums t a.albumId hu hn)

/-- C3, witnessed: importing `albumC` into `storeMix` drops the unreviewed
`albumA` from all three collections. -/
theorem import_drops_unreviewed_not_in_batch_witness :
    (∀ x ∈ (importAlbums storeMix [albumC] "T2").1.albums,
      x.albumId ≠ albumA.albumId) ∧
    lookupKey (importAlbums storeMix [albumC] "T2").1.status albumA.albumId
      = none ∧
    lookupKey (importAlbums storeMix [albumC] "T2").1.meta albumA.albumId
      = none :=
  import_drops_unreviewed_not_in_batch storeMix [albumC] "T2" albumA
    (by decide) (by decide) (by decide)

/-- C4: in every store reachable from the empty store by any sequence of
import, status-update, batch-reject, and delete operations, the key sets
of ReviewStatus and ImportMeta are subsets of the identifiers in Albums. -/
theorem reachable_store_keys_subset (ops : List Op) :
    keysSub (runOps emptyStore ops) :=
  keysSub_runOps emptyStore ops
    ⟨fun p hp => absurd hp (List.not_mem_nil p),
     fun p hp => absurd hp (List.not_mem_nil p)⟩

/-- C5: updateStatus on an identifier with no Album row fails with the
not-found error and leaves the store unchanged; on an identifier with an
Album row it succeeds. -/
theorem update_status_not_found_spec (s : Store) (id : String)
    (patch : PartialStatus) :
    (s.albums.find? (fun a => a.albumId == id) = none →
      updateAlbumReviewStatus s id patch = .error .notFound ∧
      applyOp s (.updateStatus id patch) = s) ∧
    (∀ album, s.albums.find? (fun a => a.albumId == id) = some album →
      ∃ s', updateAlbumReviewStatus s id patch = .ok s') := by
  constructor
  · intro hf
    have he := updateAlbumReviewStatus_of_find_none s id patch hf
    refine ⟨he, ?_⟩
    show (match updateAlbumReviewStatus s id patch with
      | Except.ok s' => s'
      | Except.error _ => s) = s
    rw [he]
  · intro album hf
    obtain ⟨ns, hns⟩ :=
      updateAlbumReviewStatus_of_find_some s id patch album hf
    exact ⟨_, hns⟩

/-- C5, witnessed on `storeMix` with a missing and a present identifier. -/
theorem update_status_not_found_witness :
    (updateAlbumReviewStatus storeMix "missing" {} =
        .error .notFound ∧
      applyOp storeMix (.updateStatus "missing" {}) = storeMix) ∧
    ∃ s', updateAlbumReviewStatus storeMix "1" {} = .ok s' :=
  ⟨(update_status_not_found_spec storeMix "missing" {}).1 (by decide),
   (update_status_not_found_spec storeMix "1" {}).2 albumA (by decide)⟩

/-- C6: batchReject is idempotent on a list of unreviewed identifiers,
never changes a row that is already Reviewed, writes the rejected sentinel
row (`reviewProgress` 0, no selected image, the rejected link) for each
listed unreviewed identifier that has a matching Album, and silently skips
identifiers without a matching Album. -/
theorem batch_reject_spec (s : Store) (ids : List String) :
    ((∀ id ∈ ids, statusUnreviewed s id = true) →
      batchUpdateReviewStatus (batchUpdateReviewStatus s ids) ids =
        batchUpdateReviewStatus s ids) ∧
    (∀ id ex, lookupKey s.status id = some ex →
      ex.reviewStatus = .reviewed →
      lookupKey (batchUpdateReviewStatus s ids).status id = some ex) ∧
    (∀ id ∈ ids, ∀ album,
      s.albums.find? (fun a => a.albumId == id) = some album →
      statusUnreviewed s id = true →
      lookupKey (batchUpdateReviewStatus s ids).status id =
        some (rejectedStatusOf id album)) ∧
    (∀ id, s.albums.find? (fun a => a.albumId == id) = none →
      lookupKey (batchUpdateReviewStatus s ids).status id =
        lookupKey s.status id) := by
  refine ⟨?_, ?_, ?_, ?_⟩
  · intro _
    show Store.mk s.albums
        (ids.foldl (batchRejectStep s.albums)
          (ids.foldl (batchRejectStep s.albums) s.status)) s.meta =
      Store.mk s.albums (ids.foldl (batchRejectStep s.albums) s.status) s.meta
    rw [foldl_reject_idem s.albums ids s.status]
  · intro id ex hl hr
    exact lookupKey_foldl_reject_reviewed s.albums ids s.status id ex hl hr
  · intro id hmem album hf hu
    exact foldl_reject_writes s.albums ids s.status id album hmem hf
      ((statusUnreviewed_eq_true_iff s id).mp hu)
  · intro id hf
    exact foldl_reject_no_album s.albums ids s.status id hf

/-- C6, witnessed on `storeMix`: rejecting `["1"]` twice equals once, the
reviewed row of `"2"` is untouched, `"1"` gets the rejected sentinel row,
and a missing identifier is skipped. -/
theorem batch_reject_spec_witness :
    batchUpdateReviewStatus (batchUpdateReviewStatus storeMix ["1"]) ["1"] =
      batchUpdateReviewStatus storeMix ["1"] ∧
    lookupKey (batchUpdateReviewStatus storeMix ["1"]).status "2" =
      some reviewedRowB ∧
    lookupKey (batchUpdateReviewStatus storeMix ["1"]).status "1" =
      some (rejectedStatusOf "1" albumA) ∧
    lookupKey (batchUpdateReviewStatus storeMix ["9"]).status "9" =
      lookupKey storeMix.status "9" := by
  refine ⟨(batch_reject_spec storeMix ["1"]).1 (by decide),
    (batch_reject_spec storeMix ["1"]).2.1 "2" reviewedRowB (by decide) rfl,
    (batch_reject_spec storeMix ["1"]).2.2.1 "1" (by decide) albumA
      (by decide) (by decide),
    (batch_reject_spec storeMix ["9"]).2.2.2 "9" (by decide)⟩

/-- C7: deleteRecords removes every requested identifier from all three
collections, returns the size of the de-duplicated request set whether or
not the identifiers exist, leaves non-requested entries unchanged, and is
a no-op returning 0 on empty input. -/
theorem delete_records_spec (s : Store) (ids : List String) :
    ((deleteAlbums s ids).2 = ids.toFinset.card) ∧
    (∀ id ∈ ids,
      (∀ a ∈ (deleteAlbums s ids).1.albums, a.albumId ≠ id) ∧
      lookupKey (deleteAlbums s ids).1.status id = none ∧
      lookupKey (deleteAlbums s ids).1.meta id = none) ∧
    ((deleteAlbums s ids).1.albums =
      s.albums.filter (fun a => !(ids.contains a.albumId))) ∧
    (∀ id, id ∉ ids →
      lookupKey (deleteAlbums s ids).1.status id = lookupKey s.status id ∧
      lookupKey (deleteAlbums s ids).1.meta id = lookupKey s.meta id) ∧
    (ids = [] → deleteAlbums s ids = (s, 0)) := by
  by_cases hids : ids = []
  · subst hids
    rw [deleteAlbums_nil]
    refine ⟨by simp, ?_, ?_, ?_, fun _ => rfl⟩
    · intro id hid
      cases hid
    · simp
    · intro id _
      exact ⟨rfl, rfl⟩
  · rw [deleteAlbums_eq_of_ne s ids hids]
    refine ⟨?_, ?_, ?_, ?_, fun hc => absurd hc hids⟩
    · rw [List.card_toFinset]
    · intro id hid
      have hcont : ids.dedup.contains id = true := by
        rw [dedup_contains_eq]
        exact (string_contains_iff ids id).mpr hid
      refine ⟨?_, ?_, ?_⟩
      · intro a ha hc
        have hmem := List.mem_filter.mp ha
        rw [hc, hcont] at hmem
        cases hmem.2
      · exact lookupKey_filter_of_false s.status _ id
          (fun v => by rw [hcont]; rfl)
      · exact lookupKey_filter_of_false s.meta _ id
          (fun v => by rw [hcont]; rfl)
    · apply List.filter_congr
      intro a _
      rw [dedup_contains_eq]
    · intro id hid
      have hcont : ids.dedup.contains id = false := by
        rcases Bool.eq_false_or_eq_true (ids.dedup.contains id) with ht | hf
        · exact absurd (List.mem_dedup.mp
            ((string_contains_iff ids.dedup id).mp ht)) hid
        · exact hf
      exact ⟨lookupKey_filter_of_true s.status _ id
          (fun v => by rw [hcont]; rfl),
        lookupKey_filter_of_true s.meta _ id
          (fun v => by rw [hcont]; rfl)⟩

/-- C7, witnessed on `storeMix` with a duplicated and a missing identifier
in the request, plus the empty request. -/
theorem delete_records_spec_witness :
    (deleteAlbums storeMix ["1", "1", "9"]).2 = 2 ∧
    lookupKey (deleteAlbums storeMix ["1", "1", "9"]).1.status "1" = none ∧
    lookupKey (deleteAlbums storeMix ["1", "1", "9"]).1.status "2" =
      lookupKey storeMix.status "2" ∧
    deleteAlbums storeMix [] = (storeMix, 0) := by
  refine ⟨?_, ((delete_records_spec storeMix ["1", "1", "9"]).2.1 "1"
      (by decide)).2.1,
    ((delete_records_spec storeMix ["1", "1", "9"]).2.2.2.1 "2"
      (by decide)).1,
    (delete_records_spec storeMix []).2.2.2.2 rfl⟩
  rw [(delete_records_spec storeMix ["1", "1", "9"]).1]
  decide

/-- C8: over the unreviewed subsequence, nextUnreviewed returns the element
after the current identifier, the first element when the current identifier
is not in the subsequence, and null past the end or when the subsequence is
empty (the positional part is stated for duplicate-free subsequences). -/
theorem next_unreviewed_spec (s : Store) (current : String) :
    (unreviewedIds s = [] → getNextUnreviewedAlbumId s current = none) ∧
    (current ∉ unreviewedIds s →
      getNextUnreviewedAlbumId s current = (unreviewedIds s).head?) ∧
    (∀ i : Nat, (unreviewedIds s).Nodup →
      (unreviewedIds s)[i]? = some current →
      getNextUnreviewedAlbumId s current = (unreviewedIds s)[i + 1]?) := by
  refine ⟨?_, ?_, ?_⟩
  · intro h
    have hL : unreviewedAlbums s = [] := by
      have := h
      unfold unreviewedIds at this
      exact List.map_eq_nil_iff.mp this
    exact getNext_of_empty s current (by rw [hL]; rfl)
  · intro h
    have hfi : findIndex (fun a => a.albumId == current)
        (unreviewedAlbums s) = none := by
      apply (findIndex_eq_none_iff _ _).mpr
      intro a ha
      have hmem : a.albumId ∈ unreviewedIds s :=
        List.mem_map_of_mem Album.albumId ha
      have hne : a.albumId ≠ current := fun hc => h (hc ▸ hmem)
      simpa using hne
    by_cases hL : (unreviewedAlbums s).length = 0
    · rw [getNext_of_empty s current hL]
      have hnil : unreviewedAlbums s = [] := List.length_eq_zero.mp hL
      unfold unreviewedIds
      rw [hnil]
      rfl
    · have hb : ((unreviewedAlbums s).length == 0) = false := by
        simpa using hL
      rw [getNext_of_findIndex_none s current hb hfi]
      unfold unreviewedIds
      rw [List.head?_map]
  · intro i hnd hget
    have hget' : ((unreviewedAlbums s).map Album.albumId)[i]? =
        some current := hget
    rw [List.getElem?_map] at hget'
    rcases Option.map_eq_some'.mp hget' with ⟨a, ha, hac⟩
    have hlen : i < (unreviewedAlbums s).length := getElem?_lt_length ha
    have hfi : findIndex (fun x => x.albumId == current)
        (unreviewedAlbums s) = some i := by
      apply findIndex_of_getElem? _ _ i a ha
      · simpa using hac
      · intro j b hj hb
        rcases Bool.eq_false_or_eq_true (b.albumId == current) with ht | hf
        · exfalso
          have hbc : b.albumId = current := by simpa using ht
          have hbj : (unreviewedIds s)[j]? = some current := by
            unfold unreviewedIds
            rw [List.getElem?_map, hb]
            simp [hbc]
          have hjlen : j < (unreviewedIds s).length :=
            getElem?_lt_length hbj
          have hij : j = i :=
            List.getElem?_inj hjlen hnd (hbj.trans hget.symm)
          omega
        · exact hf
    have hb0 : ((unreviewedAlbums s).length == 0) = false := by
      have hpos : 0 < (unreviewedAlbums s).length :=
        Nat.lt_of_le_of_lt (Nat.zero_le i) hlen
      simpa using Nat.pos_iff_ne_zero.mp hpos
    rw [getNext_of_findIndex_some s current i hb0 hfi]
    by_cases hlast : (unreviewedAlbums s).length - 1 ≤ i
    · rw [if_pos hlast]
      have hi1 : (unreviewedIds s).length ≤ i + 1 := by
        unfold unreviewedIds
        rw [List.length_map]
        omega
      rw [List.getElem?_eq_none hi1]
    · rw [if_neg hlast]
      unfold unreviewedIds
      rw [List.getElem?_map]

/-- C8, witnessed on a three-album store `[A, B, C]` with nothing reviewed:
the successor of the first element, the end behaviour, the absent-identifier
behaviour, and the empty subsequence. -/
theorem next_unreviewed_spec_witness :
    getNextUnreviewedAlbumId storeABC "1" = some "2" ∧
    getNextUnreviewedAlbumId storeABC "3" = none ∧
    getNextUnreviewedAlbumId storeABC "zzz" = some "1" ∧
    getNextUnreviewedAlbumId emptyStore "1" = none := by
  refine ⟨?_, ?_, ?_, ?_⟩
  · have h := (next_unreviewed_spec storeABC "1").2.2 0 (by decide) (by decide)
    rw [h]
    decide
  · have h := (next_unreviewed_spec storeABC "3").2.2 2 (by decide) (by decide)
    rw [h]
    decide
  · have h := (next_unreviewed_spec storeABC "zzz").2.1 (by decide)
    rw [h]
    decide
  · exact (next_unreviewed_spec emptyStore "1").1 rfl

/-- C9: for a present current album, the displayed completed-so-far count
is exactly `clamp(0, T, (T − U) + P)` rendered over the total `T`; in
particular it never exceeds `T`, and it reads `0/0` whenever `T = 0`. -/
theorem overall_progress_clamp (s : Store) (current : String) :
    overallProgressText s (some current) =
      toString (claimProgressValue ((totalAlbumCount s : Int))
        ((unreviewedCount s : Int)) (currentIndex s current)) ++ "/" ++
      toString (totalAlbumCount s) := by
  have hUT : unreviewedCount s ≤ totalAlbumCount s :=
    List.length_filter_le _ _
  have hP : 0 ≤ currentIndex s current := by
    unfold currentIndex
    cases hfi : findIndex (fun a => a.albumId == current)
        (unreviewedAlbums s) with
    | none => simp
    | some i =>
      simp only []
      omega
  simp only [overallProgressText]
  by_cases hT : totalAlbumCount s ≤ 0
  · rw [if_pos hT]
    have hT0 : totalAlbumCount s = 0 := Nat.le_zero.mp hT
    have hcl : claimProgressValue ((totalAlbumCount s : Int))
        ((unreviewedCount s : Int)) (currentIndex s current) = 0 := by
      unfold claimProgressValue
      have hTz : (totalAlbumCount s : Int) = 0 := by
        rw [hT0]
        rfl
      rw [hTz]
      simp only [max_def, min_def]
      split_ifs <;> omega
    rw [hcl, hT0]
    rfl
  · rw [if_neg hT]
    have harith := clamp_join ((totalAlbumCount s : Int))
      ((unreviewedCount s : Int)) (currentIndex s current)
      (by exact_mod_cast Nat.zero_le _) (by exact_mod_cast hUT) hP
    rw [harith]

/-- C10: importing a batch whose two rows share one identifier into the
empty store keeps exactly one Album row holding the later row's data, and
returns imported 2 and duplicates 1 (the collision is counted against the
accumulating merged set). -/
theorem import_duplicate_in_batch (a b : Album) (h : a.albumId = b.albumId)
    (t : String) :
    importAlbums emptyStore [a, b] t =
      (⟨[b], [], [(b.albumId, ⟨b.albumId, t⟩)]⟩, 2, 1) := by
  have hmaps : importMaps emptyStore [a, b] t =
      ([(b.albumId, b)], [(b.albumId, ⟨b.albumId, t⟩)], 1) := by
    unfold importMaps importPhase1
    rw [show (emptyStore.albums : List Album) = [] from rfl]
    rw [List.foldl_nil, List.foldl_cons, List.foldl_cons, List.foldl_nil]
    unfold importPhase2Step
    simp only [setKey, hasKey, lookupKey, List.any_nil, Bool.false_eq_true,
      if_false, List.nil_append, List.any_cons, h, beq_self_eq_true,
      Bool.true_or, if_true, List.map_cons, List.map_nil]
  unfold importAlbums
  rw [hmaps]
  simp only [List.map_cons, List.map_nil, List.filter_nil, List.filter_cons,
    hasKey, List.any_cons, List.any_nil, beq_self_eq_true, Bool.true_or,
    Bool.or_false, if_true]
  rfl

/-- C10, witnessed on two concrete rows sharing identifier `"1"`. -/
theorem import_duplicate_in_batch_witness :
    importAlbums emptyStore [albumA, albumA2] "T0" =
      (⟨[albumA2], [], [("1", ⟨"1", "T0"⟩)]⟩, 2, 1) :=
  import_duplicate_in_batch albumA albumA2 rfl "T0"
